import Mathlib

/-!
# Verification of the offline_folium asset-localization core

Shallow embedding of `offline_folium/assets.py`, `offline_folium/rewrite.py`
and `offline_folium/__main__.py`, together with theorems settling the claims
about the Resolver, the Tree Rewriter and the Cache Populator.

Conventions:
* Python strings are Lean `String`; `str.rsplit`/`str.split` segments are
  computed over `String.data` (lists of characters) so that everything
  evaluates inside the kernel.
* Filesystem state is a map `String → Option String` from basename to file
  contents; network fetches are an oracle `String → Option String` from URL
  to response body (`none` models any exception in `urlopen`/`read`).
* Python object identity for the tree walk is a `Fin n` index into a heap
  `Fin n → RNode n`.
-/

/-! ## String helpers (Python `str` operations used by the source) -/

/-- Characters of the final `/`-separated segment of a character list:
`s.rsplit("/", 1)[-1]`.  Scanning left to right, a `/` resets the
accumulator, any other character extends it. -/
def lastSegChars (cs : List Char) : List Char :=
  cs.foldl (fun acc c => if c = '/' then [] else acc ++ [c]) []

/-- Python `url.rsplit("/", 1)[-1]`: the substring after the last `/`
(the whole string when there is no `/`). -/
def lastSeg (s : String) : String :=
  ⟨lastSegChars s.data⟩

/-- Python `url.split("?")[0]`: the prefix of the string before the first
`?` (the whole string when there is no `?`). -/
def beforeQuery (s : String) : String :=
  ⟨s.data.takeWhile (fun c => c ≠ '?')⟩

/-- Boolean test that the first list of characters begins the second. -/
def charsBegins : List Char → List Char → Bool
  | [], _ => true
  | _ :: _, [] => false
  | p :: ps, c :: cs => if p = c then charsBegins ps cs else false

/-- Python `s.startswith(pre)`. -/
def pyStartsWith (s pre : String) : Bool :=
  charsBegins pre.data s.data

/-! ## Resolver (`offline_folium/assets.py`) -/

/-- The cache directory `offline_folium/local`.  Stands for the runtime
value of `local_dir()` (`assets.py`) / `LOCAL_DIR` (`paths.py`): a single,
process-wide absolute directory path. -/
def LOCAL_DIR : String := "/offline_folium/local"

/-- `local_file(filename)` = `str(local_dir() / filename)`. -/
def local_file (filename : String) : String :=
  LOCAL_DIR ++ "/" ++ filename

/-- The canonical `URL_MAP` dict of `assets.py`, as an association list in
its source order.  Keys may be basenames or full URLs; every shipped entry
maps a basename to itself. -/
def URL_MAP : List (String × String) :=
  [("leaflet.js", "leaflet.js"),
   ("leaflet.css", "leaflet.css"),
   ("leaflet.awesome-markers.js", "leaflet.awesome-markers.js"),
   ("leaflet.awesome-markers.css", "leaflet.awesome-markers.css")]

/-- Python dict lookup `d[k]` / `k in d` on an association list. -/
def dictGet (k : String) : List (String × String) → Option String
  | [] => none
  | (k', v) :: rest => if k = k' then some v else dictGet k rest

/-- `resolve_url_to_local` (`assets.py`, lines 39–49):

```python
basename = url.rsplit("/", 1)[-1]
if url in URL_MAP:
    return local_file(URL_MAP[url])
if basename in URL_MAP:
    return local_file(URL_MAP[basename])
return None
```
-/
def resolve_url_to_local (url : String) : Option String :=
  match dictGet url URL_MAP with
  | some v => some (local_file v)
  | none =>
    match dictGet (lastSeg url) URL_MAP with
    | some v => some (local_file v)
    | none => none

/-- Modelled from the spec: the §4.1 Resolver algorithm as the spec words it
(scheme check, query stripping, empty-segment check, filesystem existence
check), parameterized by the cache directory's file-existence oracle.  Used
only to compare the spec's description against `resolve_url_to_local`. -/
def resolveSpec (fileExists : String → Bool) (url : String) : Option String :=
  if pyStartsWith url "http://" || pyStartsWith url "https://" then
    let candidate := lastSeg (beforeQuery url)
    if candidate = "" then none
    else if fileExists candidate then some (local_file candidate) else none
  else none

/-! ### Resolver lemmas -/

theorem dictGet_isSome_iff_mem_keys (k : String) :
    ∀ m : List (String × String), (dictGet k m).isSome = true ↔ k ∈ m.map Prod.fst := by
  intro m
  induction m with
  | nil => simp [dictGet]
  | cons p rest ih =>
    obtain ⟨k', v⟩ := p
    by_cases h : k = k' <;> simp [dictGet, h, ih]

theorem dictGet_mem_values {k v : String} :
    ∀ {m : List (String × String)}, dictGet k m = some v → v ∈ m.map Prod.snd := by
  intro m
  induction m with
  | nil => simp [dictGet]
  | cons p rest ih =>
    obtain ⟨k', v'⟩ := p
    by_cases h : k = k' <;> intro hv <;> simp [dictGet, h] at hv
    · simp [hv]
    · exact List.mem_cons_of_mem _ (ih hv)

/-- Every value of `URL_MAP` is a fixed point of the resolver: it maps to a
local path whose basename is that same value. -/
theorem resolve_local_file_fixed {v : String} (hv : v ∈ URL_MAP.map Prod.snd) :
    resolve_url_to_local (local_file v) = some (local_file v) := by
  simp only [URL_MAP, List.map_cons, List.map_nil, List.mem_cons, List.not_mem_nil,
    or_false] at hv
  rcases hv with h | h | h | h <;> subst h <;> decide

/-- If the resolver produces a path, a second resolution of that path
reproduces it. -/
theorem resolve_fix {u p : String} (h : resolve_url_to_local u = some p) :
    resolve_url_to_local p = some p := by
  unfold resolve_url_to_local at h
  rcases h1 : dictGet u URL_MAP with _ | v
  · rw [h1] at h
    rcases h2 : dictGet (lastSeg u) URL_MAP with _ | v
    · rw [h2] at h; simp at h
    · rw [h2] at h
      simp only [Option.some.injEq] at h
      subst h
      exact resolve_local_file_fixed (dictGet_mem_values h2)
  · rw [h1] at h
    simp only [Option.some.injEq] at h
    subst h
    exact resolve_local_file_fixed (dictGet_mem_values h1)

/-- Locator substitution performed by the rewriter on one locator:
keep the resolved local path when there is one, else the original. -/
def substLoc (u : String) : String :=
  match resolve_url_to_local u with
  | some p => p
  | none => u

theorem substLoc_idem (u : String) : substLoc (substLoc u) = substLoc u := by
  rcases h : resolve_url_to_local u with _ | p
  · simp [substLoc, h]
  · have h1 : substLoc u = p := by simp [substLoc, h]
    rw [h1]
    simp [substLoc, resolve_fix h]

/-! ### C1 and C2 -/

/-- C1 counterexample.  The claim says `resolve_url_to_local` strips the
query component and answers according to file existence in the cache
directory.  In the code there is no query stripping and no filesystem
check:  `resolve("https://cdn.example.com/x/leaflet.js?v=2")` is `None`
even when `leaflet.js` is cached (the spec-modelled resolver returns the
cache path), and `resolve("https://x/leaflet.js")` returns the cache path
even when nothing at all is cached (the spec-modelled resolver returns
no match). -/
theorem C1_counterexample :
    resolve_url_to_local "https://cdn.example.com/x/leaflet.js?v=2" = none
    ∧ resolveSpec (fun f => f == "leaflet.js")
        "https://cdn.example.com/x/leaflet.js?v=2" = some (local_file "leaflet.js")
    ∧ resolve_url_to_local "https://x/leaflet.js" = some (local_file "leaflet.js")
    ∧ resolveSpec (fun _ => false) "https://x/leaflet.js" = none := by
  refine ⟨by decide, by decide, by decide, by decide⟩

/-- C1 (amended): `resolve_url_to_local` ignores both the filesystem and
query strings.  It returns a local path exactly when the full URL or its
final `/`-segment (query string still attached) is a key of the static
`URL_MAP`; in particular `resolve("https://cdn.example.com/x/leaflet.js?v=2")`
is `None` no matter which files exist in the cache directory. -/
theorem C1_amended_theorem :
    (∀ url : String,
      ((resolve_url_to_local url).isSome = true
        ↔ url ∈ URL_MAP.map Prod.fst ∨ lastSeg url ∈ URL_MAP.map Prod.fst))
    ∧ resolve_url_to_local "https://cdn.example.com/x/leaflet.js?v=2" = none := by
  constructor
  · intro url
    rw [← dictGet_isSome_iff_mem_keys url URL_MAP,
      ← dictGet_isSome_iff_mem_keys (lastSeg url) URL_MAP]
    unfold resolve_url_to_local
    rcases h1 : dictGet url URL_MAP with _ | v <;>
      rcases h2 : dictGet (lastSeg url) URL_MAP with _ | w <;> simp [h1, h2]
  · decide

/-- C2 counterexample.  The claim says every input that does not begin with
`http://` or `https://` is returned as no match.  The code has no scheme
check: the bare string `"leaflet.js"` begins with neither scheme yet is
resolved to the local cache path. -/
theorem C2_counterexample :
    pyStartsWith "leaflet.js" "http://" = false
    ∧ pyStartsWith "leaflet.js" "https://" = false
    ∧ resolve_url_to_local "leaflet.js" = some (local_file "leaflet.js") := by
  refine ⟨by decide, by decide, by decide⟩

/-- C2 (amended): an input string is returned as no match whenever neither
it nor its final `/`-segment is a key of `URL_MAP` — regardless of scheme;
in particular `resolve("/already/local/path.js")` always returns no match.
(But a schemeless string whose basename is a `URL_MAP` key, such as
`"leaflet.js"`, is still rewritten.) -/
theorem C2_amended_theorem :
    (∀ s : String, dictGet s URL_MAP = none → dictGet (lastSeg s) URL_MAP = none →
      resolve_url_to_local s = none)
    ∧ resolve_url_to_local "/already/local/path.js" = none := by
  constructor
  · intro s h1 h2
    unfold resolve_url_to_local
    rw [h1, h2]
  · decide

/-- C2 witness: the general half of `C2_amended_theorem` applied at a
concrete local-style path. -/
theorem C2_amended_witness :
    resolve_url_to_local "/usr/share/icons/marker.png" = none :=
  C2_amended_theorem.1 "/usr/share/icons/marker.png" (by decide) (by decide)

/-! ## Python values and `rewrite_asset_list` (`offline_folium/rewrite.py`) -/

/-- The Python values the rewriter can encounter inside asset lists:
strings, integers, lists, tuples and `None` (enough to cover both the
well-formed folium shape and the degenerate inputs the code guards for). -/
inductive PyVal where
  | str : String → PyVal
  | int : Int → PyVal
  | list : List PyVal → PyVal
  | tuple : List PyVal → PyVal
  | none : PyVal

/-- Exceptions the rewriter's code can raise. -/
inductive PyErr where
  | attributeError : PyErr

/-- `isinstance(item, (list, tuple)) and len(item) == 2`, together with the
unpacking `name, url = item`. -/
def itemPair : PyVal → Option (PyVal × PyVal)
  | .list [a, b] => some (a, b)
  | .tuple [a, b] => some (a, b)
  | _ => none

/-- `resolve_url_to_local(url)` called on an arbitrary Python value: the
body immediately evaluates `url.rsplit("/", 1)`, so any non-string
argument raises `AttributeError`. -/
def resolvePy : PyVal → Except PyErr (Option String)
  | .str s => .ok (resolve_url_to_local s)
  | _ => .error .attributeError

/-- The loop body of `rewrite_asset_list`: build the `rewritten` list.
Non-pair items are appended unchanged; each 2-element pair is unpacked and
its second component passed to the resolver; a match is appended as the
tuple `(name, local_path)`, a miss as the tuple `(name, url)`. -/
def mapItems : List PyVal → Except PyErr (List PyVal)
  | [] => .ok []
  | item :: rest =>
    match itemPair item with
    | some (nm, url) =>
      match resolvePy url with
      | .error e => .error e
      | .ok lp =>
        match mapItems rest with
        | .error e => .error e
        | .ok rest' =>
          match lp with
          | some p => .ok (.tuple [nm, .str p] :: rest')
          | Option.none => .ok (.tuple [nm, url] :: rest')
    | Option.none =>
      match mapItems rest with
      | .error e => .error e
      | .ok rest' => .ok (item :: rest')

/-- `rewrite_asset_list` (`rewrite.py`, lines 7–30).  A non-list, non-tuple
input is returned unchanged; a list or tuple input is rebuilt into the
Python list `rewritten`.  (`if local_path:` is modelled as the `some`/`none`
split: `local_file` never returns an empty — falsy — string since it always
contains `LOCAL_DIR ++ "/"`.) -/
def rewrite_asset_list : PyVal → Except PyErr PyVal
  | .list items =>
    match mapItems items with
    | .ok out => .ok (.list out)
    | .error e => .error e
  | .tuple items =>
    match mapItems items with
    | .ok out => .ok (.list out)
    | .error e => .error e
  | v => .ok v

/-- Typed locator substitution on a well-formed `[(name, url), ...]`
asset list: what `rewrite_asset_list` computes on folium's actual asset
lists (see `rewrite_asset_list_encode`). -/
def rwAssets (l : List (String × String)) : List (String × String) :=
  l.map (fun p => (p.1, substLoc p.2))

/-- A well-formed asset list as the Python value folium stores:
a list of `(name, url)` string tuples. -/
def encodeAssets (l : List (String × String)) : PyVal :=
  .list (l.map (fun p => .tuple [.str p.1, .str p.2]))

theorem mapItems_encode (l : List (String × String)) :
    mapItems (l.map (fun p => PyVal.tuple [.str p.1, .str p.2]))
      = .ok ((rwAssets l).map (fun p => PyVal.tuple [.str p.1, .str p.2])) := by
  induction l with
  | nil => rfl
  | cons p rest ih =>
    obtain ⟨nm, u⟩ := p
    rcases h : resolve_url_to_local u with _ | lp <;>
      simp [mapItems, itemPair, resolvePy, ih, rwAssets, substLoc, h]

/-- On a well-formed asset list, `rewrite_asset_list` never raises and is
exactly the typed per-entry locator substitution `rwAssets`. -/
theorem rewrite_asset_list_encode (l : List (String × String)) :
    rewrite_asset_list (encodeAssets l) = .ok (encodeAssets (rwAssets l)) := by
  simp [rewrite_asset_list, encodeAssets, mapItems_encode l]

/-! ### C8 -/

/-- C8: on a well-formed asset list, rewriting is a pure locator
substitution: it never raises, keeps every entry's label, replaces each
locator by its resolved local path when resolution matches and leaves it
unchanged otherwise, and preserves the length and order of the list
(entry `i` of the output comes from entry `i` of the input). -/
theorem C8_theorem :
    ∀ l : List (String × String),
      rewrite_asset_list (encodeAssets l) = .ok (encodeAssets (rwAssets l))
      ∧ (rwAssets l).length = l.length
      ∧ (∀ i : Nat, (rwAssets l).get? i
          = (l.get? i).map (fun p => (p.1,
              match resolve_url_to_local p.2 with
              | some lp => lp
              | none => p.2))) := by
  intro l
  refine ⟨rewrite_asset_list_encode l, by simp [rwAssets], ?_⟩
  intro i
  simp [rwAssets, List.get?_map, substLoc]

/-! ### C10 -/

/-- C10 counterexample.  The claim says `rewrite_asset_list` is total and
never raises.  A 2-element pair whose second component is not a string is
unpacked and passed to the resolver, whose first statement
`url.rsplit("/", 1)` raises `AttributeError`. -/
theorem C10_counterexample :
    rewrite_asset_list (.list [.tuple [.str "name", .int 5]])
      = .error .attributeError := rfl

/-- A 2-element pair is safe for the rewriter exactly when its second
component is a string (non-pairs are always safe). -/
def wellFormedItem (it : PyVal) : Bool :=
  match itemPair it with
  | some (_, .str _) => true
  | some _ => false
  | none => true

theorem mapItems_wf :
    ∀ items : List PyVal, items.all wellFormedItem = true →
      ∃ out, mapItems items = .ok out
        ∧ out.length = items.length
        ∧ (∀ i it, items.get? i = some it → itemPair it = none →
            out.get? i = some it) := by
  intro items
  induction items with
  | nil => intro _; exact ⟨[], rfl, rfl, by intro i it h; simp at h⟩
  | cons item rest ih =>
    intro hall
    rw [List.all_cons, Bool.and_eq_true] at hall
    obtain ⟨out', hout', hlen, hpos⟩ := ih hall.2
    rcases hp : itemPair item with _ | ⟨nm, url⟩
    · refine ⟨item :: out', ?_, by simp [hlen], ?_⟩
      · simp [mapItems, hp, hout']
      · intro i it hi hn
        match i with
        | 0 => simpa using hi
        | i + 1 => simpa using hpos i it (by simpa using hi) hn
    · have hstr : ∃ s, url = .str s := by
        unfold wellFormedItem at hall
        rw [hp] at hall
        rcases url with s | _ | _ | _ | _
        · exact ⟨s, rfl⟩
        all_goals simp_all
      obtain ⟨s, rfl⟩ := hstr
      rcases hr : resolve_url_to_local s with _ | lp
      · refine ⟨.tuple [nm, .str s] :: out', ?_, by simp [hlen], ?_⟩
        · simp [mapItems, hp, resolvePy, hr, hout']
        · intro i it hi hnone
          match i with
          | 0 =>
            simp at hi
            rw [← hi] at hnone
            rw [hp] at hnone
            exact absurd hnone (by simp)
          | i + 1 => simpa using hpos i it (by simpa using hi) hnone
      · refine ⟨.tuple [nm, .str lp] :: out', ?_, by simp [hlen], ?_⟩
        · simp [mapItems, hp, resolvePy, hr, hout']
        · intro i it hi hnone
          match i with
          | 0 =>
            simp at hi
            rw [← hi] at hnone
            rw [hp] at hnone
            exact absurd hnone (by simp)
          | i + 1 => simpa using hpos i it (by simpa using hi) hnone

/-- C10 (amended): `rewrite_asset_list` returns non-list, non-tuple inputs
unchanged and carries non-pair elements through at their original
positions, and it is total and never raises *provided* every 2-element
pair element has a string second component; any 2-element pair is passed
to the resolver regardless of its component types, and a non-string
locator raises `AttributeError` (see the counterexample). -/
theorem C10_amended_theorem :
    (∀ s, rewrite_asset_list (.str s) = .ok (.str s))
    ∧ (∀ i : Int, rewrite_asset_list (.int i) = .ok (.int i))
    ∧ rewrite_asset_list .none = .ok .none
    ∧ (∀ items : List PyVal, items.all wellFormedItem = true →
        ∃ out, rewrite_asset_list (.list items) = .ok (.list out)
          ∧ rewrite_asset_list (.tuple items) = .ok (.list out)
          ∧ out.length = items.length
          ∧ (∀ i it, items.get? i = some it → itemPair it = none →
              out.get? i = some it)) := by
  refine ⟨fun _ => rfl, fun _ => rfl, rfl, ?_⟩
  intro items hall
  obtain ⟨out, hout, hlen, hpos⟩ := mapItems_wf items hall
  exact ⟨out, by simp [rewrite_asset_list, hout], by simp [rewrite_asset_list, hout],
    hlen, hpos⟩

/-- C10 witness: the totality half of `C10_amended_theorem` applied to a
concrete mixed list (one non-pair element, one well-formed pair). -/
theorem C10_amended_witness :
    ∃ out,
      rewrite_asset_list (.list [.str "stray", .tuple [.str "leaflet", .str "https://x/leaflet.js"]])
        = .ok (.list out)
      ∧ rewrite_asset_list (.tuple [.str "stray", .tuple [.str "leaflet", .str "https://x/leaflet.js"]])
        = .ok (.list out)
      ∧ out.length = 2
      ∧ (∀ i it,
          [PyVal.str "stray", PyVal.tuple [.str "leaflet", .str "https://x/leaflet.js"]].get? i
              = some it →
            itemPair it = none → out.get? i = some it) := by
  have h := C10_amended_theorem.2.2.2
    [PyVal.str "stray", PyVal.tuple [.str "leaflet", .str "https://x/leaflet.js"]] (by decide)
  simpa using h

/-! ## Tree Rewriter (`offline_folium/rewrite.py`, lines 33–67)

Python object identity (`id(node)`) is modelled by an index `Fin n` into a
heap `Fin n → RNode n`; the `visited` set of identities is a
`Finset (Fin n)`.  The recursive `walk` closure is embedded with explicit
fuel and an `Option` result whose `none` means the fuel bound was reached;
`rewrite_tree_assets` runs it with fuel `n + 1`, and the totality theorem
shows this fuel is never exhausted, which is the shallow form of the
termination claim. -/

/-- A folium render node: optional `default_js` / `default_css` attributes
(absent attribute = `none`, so `rewrite_element_assets`'s `hasattr` check
fails), and the values of its `_children` dict in insertion order (a
missing or non-dict `_children` is the empty list). -/
structure RNode (n : Nat) where
  default_js : Option (List (String × String))
  default_css : Option (List (String × String))
  children : List (Fin n)

/-- `rewrite_element_assets` (`rewrite.py`, lines 33–41): rewrite
`default_js` and `default_css` in place when the attribute exists.  On the
well-formed asset lists a folium element carries, `rewrite_asset_list` is
exactly `rwAssets` (theorem `rewrite_asset_list_encode`). -/
def rewrite_element_assets {n : Nat} (node : RNode n) : RNode n :=
  { node with default_js := node.default_js.map rwAssets,
              default_css := node.default_css.map rwAssets }

/-- The mutable state of one `rewrite_tree_assets` call: the object heap,
the `visited` set of node identities, and (instrumentation) the order in
which nodes have been rewritten. -/
structure WalkState (n : Nat) where
  heap : Fin n → RNode n
  visited : Finset (Fin n)
  order : List (Fin n)

/-- The body of `walk` for an unvisited node, before the recursion into
children: mark the node visited and rewrite its assets. -/
def stepState {n : Nat} (st : WalkState n) (node : Fin n) : WalkState n :=
  { heap := Function.update st.heap node (rewrite_element_assets (st.heap node)),
    visited := insert node st.visited,
    order := st.order ++ [node] }

/-- `for child in children.values(): walk(child)` — sequential recursion
into the children with the evolving state, aborting on fuel exhaustion. -/
def walkList {n : Nat} (w : WalkState n → Fin n → Option (WalkState n)) :
    WalkState n → List (Fin n) → Option (WalkState n)
  | st, [] => some st
  | st, c :: cs =>
    match w st c with
    | none => none
    | some st' => walkList w st' cs

/-- The inner `walk(node)` closure of `rewrite_tree_assets`
(`rewrite.py`, lines 52–65), with explicit fuel:

```python
def walk(node):
    node_id = id(node)
    if node_id in visited:
        return
    visited.add(node_id)
    rewrite_element_assets(node)
    children = getattr(node, "_children", None)
    if isinstance(children, dict):
        for child in children.values():
            walk(child)
```
-/
def walk {n : Nat} : Nat → WalkState n → Fin n → Option (WalkState n)
  | 0, _, _ => none
  | fuel + 1, st, node =>
    if node ∈ st.visited then some st
    else
      let st1 := stepState st node
      walkList (walk fuel) st1 ((st1.heap node).children)

/-- `rewrite_tree_assets(root)` (`rewrite.py`, lines 44–67): a fresh empty
visited set, then `walk(root)`.  Fuel `n + 1` is enough for any heap of `n`
nodes (theorem `walk_total`). -/
def rewrite_tree_assets {n : Nat} (heap : Fin n → RNode n) (root : Fin n) :
    Option (WalkState n) :=
  walk (n + 1) { heap := heap, visited := ∅, order := [] } root

theorem rewrite_element_children {n : Nat} (x : RNode n) :
    (rewrite_element_assets x).children = x.children := rfl

theorem rwAssets_idem (l : List (String × String)) :
    rwAssets (rwAssets l) = rwAssets l := by
  simp only [rwAssets, List.map_map]
  exact List.map_congr_left (fun p _ => by simp [Function.comp, substLoc_idem])

theorem rewrite_element_idem {n : Nat} (x : RNode n) :
    rewrite_element_assets (rewrite_element_assets x) = rewrite_element_assets x := by
  unfold rewrite_element_assets
  rcases x with ⟨js, css, ch⟩
  rcases js with _ | l1 <;> rcases css with _ | l2 <;> simp [rwAssets_idem]

theorem stepState_children {n : Nat} (st : WalkState n) (node v : Fin n) :
    ((stepState st node).heap v).children = (st.heap v).children := by
  by_cases hv : v = node
  · subst hv
    simp [stepState, Function.update_same, rewrite_element_children]
  · simp [stepState, Function.update_noteq hv]

/-- The walk's reachability invariant between an earlier and a later state:
the visited set only grows; the heap is untouched outside the newly visited
nodes and at the previously visited ones, and every newly visited node's
entry is one `rewrite_element_assets` application to its earlier value; the
rewrite order is extended by exactly the newly visited identities, each
once. -/
def Step {n : Nat} (st st' : WalkState n) : Prop :=
  st.visited ⊆ st'.visited
  ∧ (∀ v, v ∉ st'.visited → st'.heap v = st.heap v)
  ∧ (∀ v, v ∈ st.visited → st'.heap v = st.heap v)
  ∧ (∀ v, v ∈ st'.visited → v ∉ st.visited →
      st'.heap v = rewrite_element_assets (st.heap v))
  ∧ ∃ l, st'.order = st.order ++ l ∧ l.Nodup
      ∧ ∀ v, v ∈ l ↔ v ∈ st'.visited ∧ v ∉ st.visited

theorem Step_rfl {n : Nat} (st : WalkState n) : Step st st := by
  refine ⟨subset_rfl, fun _ _ => rfl, fun _ _ => rfl,
    fun v hv hnv => absurd hv hnv, [], by simp, by simp, by simp⟩

theorem Step_trans {n : Nat} {a b c : WalkState n}
    (h1 : Step a b) (h2 : Step b c) : Step a c := by
  obtain ⟨s1, n1, o1, r1, l1, hl1, nd1, m1⟩ := h1
  obtain ⟨s2, n2, o2, r2, l2, hl2, nd2, m2⟩ := h2
  refine ⟨s1.trans s2, ?_, ?_, ?_, l1 ++ l2, ?_, ?_, ?_⟩
  · intro v hv
    have hb : v ∉ b.visited := fun h => hv (s2 h)
    rw [n2 v hv, n1 v hb]
  · intro v hv
    rw [o2 v (s1 hv), o1 v hv]
  · intro v hvc hva
    by_cases hvb : v ∈ b.visited
    · rw [o2 v hvb, r1 v hvb hva]
    · rw [r2 v hvc hvb, n1 v hvb]
  · rw [hl2, hl1, List.append_assoc]
  · refine nd1.append nd2 ?_
    intro v hv1 hv2
    exact ((m2 v).1 hv2).2 ((m1 v).1 hv1).1
  · intro v
    constructor
    · intro hv
      rcases List.mem_append.1 hv with h | h
      · exact ⟨s2 ((m1 v).1 h).1, ((m1 v).1 h).2⟩
      · exact ⟨((m2 v).1 h).1, fun hva => ((m2 v).1 h).2 (s1 hva)⟩
    · rintro ⟨hvc, hva⟩
      by_cases hvb : v ∈ b.visited
      · exact List.mem_append.2 (.inl ((m1 v).2 ⟨hvb, hva⟩))
      · exact List.mem_append.2 (.inr ((m2 v).2 ⟨hvc, hvb⟩))

theorem stepState_Step {n : Nat} {st : WalkState n} {node : Fin n}
    (h : node ∉ st.visited) : Step st (stepState st node) := by
  refine ⟨Finset.subset_insert _ _, ?_, ?_, ?_, [node], rfl, by simp, ?_⟩
  · intro v hv
    have hvn : v ≠ node := by
      intro he; subst he; exact hv (Finset.mem_insert_self _ _)
    simp [stepState, Function.update_noteq hvn]
  · intro v hv
    have hvn : v ≠ node := by intro he; subst he; exact h hv
    simp [stepState, Function.update_noteq hvn]
  · intro v hv1 hv2
    have hvn : v = node := by
      rcases Finset.mem_insert.1 hv1 with h' | h'
      · exact h'
      · exact absurd h' hv2
    subst hvn
    simp [stepState, Function.update_same]
  · intro v
    simp only [List.mem_singleton, stepState, Finset.mem_insert]
    constructor
    · rintro rfl; exact ⟨Or.inl rfl, h⟩
    · rintro ⟨h1 | h1, h2⟩
      · exact h1
      · exact absurd h1 h2

theorem walkList_Step {n : Nat} (w : WalkState n → Fin n → Option (WalkState n))
    (hw : ∀ st c st', w st c = some st' → Step st st') :
    ∀ (cs : List (Fin n)) (st st' : WalkState n),
      walkList w st cs = some st' → Step st st' := by
  intro cs
  induction cs with
  | nil =>
    intro st st' h
    simp only [walkList, Option.some.injEq] at h
    rw [← h]; exact Step_rfl st
  | cons c cs ih =>
    intro st st' h
    rcases h0 : w st c with _ | st1
    · rw [walkList, h0] at h; exact absurd h (by simp)
    · rw [walkList, h0] at h
      exact Step_trans (hw st c st1 h0) (ih st1 st' h)

theorem walk_Step {n : Nat} :
    ∀ (fuel : Nat) (st : WalkState n) (node : Fin n) (st' : WalkState n),
      walk fuel st node = some st' → Step st st' := by
  intro fuel
  induction fuel with
  | zero => intro st node st' h; simp [walk] at h
  | succ fuel ih =>
    intro st node st' h
    by_cases hv : node ∈ st.visited
    · simp only [walk, hv, if_true, Option.some.injEq] at h
      rw [← h]; exact Step_rfl st
    · simp only [walk, hv, if_false] at h
      exact Step_trans (stepState_Step hv)
        (walkList_Step (walk fuel) (fun a b c hc => ih a b c hc) _ _ _ h)

theorem walkList_total {n : Nat} (w : WalkState n → Fin n → Option (WalkState n))
    (fuel : Nat)
    (hw : ∀ (st : WalkState n) (c : Fin n), n + 1 ≤ fuel + st.visited.card →
      ∃ st', w st c = some st' ∧ st.visited ⊆ st'.visited) :
    ∀ (cs : List (Fin n)) (st : WalkState n), n + 1 ≤ fuel + st.visited.card →
      ∃ st', walkList w st cs = some st' ∧ st.visited ⊆ st'.visited := by
  intro cs
  induction cs with
  | nil => intro st _; exact ⟨st, rfl, subset_rfl⟩
  | cons c cs ih =>
    intro st hb
    obtain ⟨st1, h1, hsub1⟩ := hw st c hb
    have hcard := Finset.card_le_card hsub1
    obtain ⟨st', h', hsub'⟩ := ih st1 (by omega)
    exact ⟨st', by rw [walkList, h1]; exact h', hsub1.trans hsub'⟩

theorem walk_total {n : Nat} :
    ∀ (fuel : Nat) (st : WalkState n) (node : Fin n),
      n + 1 ≤ fuel + st.visited.card →
      ∃ st', walk fuel st node = some st' ∧ st.visited ⊆ st'.visited := by
  intro fuel
  induction fuel with
  | zero =>
    intro st node hb
    have h1 : st.visited.card ≤ n := by
      have := Finset.card_le_univ st.visited
      simpa using this
    omega
  | succ fuel ih =>
    intro st node hb
    by_cases hv : node ∈ st.visited
    · exact ⟨st, by simp [walk, hv], subset_rfl⟩
    · have hcard : (stepState st node).visited.card = st.visited.card + 1 := by
        simp [stepState, Finset.card_insert_of_not_mem hv]
      obtain ⟨st', h', hsub'⟩ :=
        walkList_total (walk fuel) fuel (fun a b hab => ih a b hab)
          (((stepState st node).heap node).children) (stepState st node) (by omega)
      refine ⟨st', by simp only [walk, hv, if_false]; exact h', ?_⟩
      exact (Finset.subset_insert _ _).trans hsub'

theorem walk_mem_visited {n : Nat} {fuel : Nat} {st : WalkState n} {node : Fin n}
    {st' : WalkState n} (h : walk fuel st node = some st') : node ∈ st'.visited := by
  match fuel with
  | 0 => simp [walk] at h
  | fuel + 1 =>
    by_cases hv : node ∈ st.visited
    · simp only [walk, hv, if_true, Option.some.injEq] at h
      rw [← h]; exact hv
    · simp only [walk, hv, if_false] at h
      have hstep := walkList_Step (walk fuel)
        (fun a b c hc => walk_Step fuel a b c hc) _ _ _ h
      exact hstep.1 (Finset.mem_insert_self _ _)

/-- A walk step never changes any node's children. -/
theorem Step_children {n : Nat} {st st' : WalkState n} (h : Step st st') :
    ∀ v, (st'.heap v).children = (st.heap v).children := by
  intro v
  obtain ⟨-, hnot, hold, hnew, -⟩ := h
  by_cases hv : v ∈ st'.visited
  · by_cases hv0 : v ∈ st.visited
    · rw [hold v hv0]
    · rw [hnew v hv hv0, rewrite_element_children]
  · rw [hnot v hv]

/-- After a successful child loop, every child of the list is visited, and
every node the loop newly visited has all its children visited (the loop
recursed into each of them). -/
theorem walkList_closure {n : Nat} (w : WalkState n → Fin n → Option (WalkState n))
    (hw_step : ∀ st c st', w st c = some st' → Step st st')
    (hw_mem : ∀ st c st', w st c = some st' → c ∈ st'.visited)
    (hw_new : ∀ st c st', w st c = some st' →
      ∀ v, v ∈ st'.visited → v ∉ st.visited →
        ∀ x, x ∈ (st'.heap v).children → x ∈ st'.visited) :
    ∀ (cs : List (Fin n)) (st st' : WalkState n), walkList w st cs = some st' →
      (∀ c, c ∈ cs → c ∈ st'.visited)
      ∧ (∀ v, v ∈ st'.visited → v ∉ st.visited →
          ∀ x, x ∈ (st'.heap v).children → x ∈ st'.visited) := by
  intro cs
  induction cs with
  | nil =>
    intro st st' h
    simp only [walkList, Option.some.injEq] at h
    subst h
    constructor
    · intro c hc; exact absurd hc (List.not_mem_nil c)
    · intro v hv hnv; exact absurd hv hnv
  | cons c cs ih =>
    intro st st' h
    rcases h0 : w st c with _ | st1
    · rw [walkList, h0] at h; exact absurd h (by simp)
    · rw [walkList, h0] at h
      have hstep2 := walkList_Step w hw_step cs st1 st' h
      obtain ⟨ihA, ihB⟩ := ih st1 st' h
      constructor
      · intro c' hc'
        rcases List.mem_cons.1 hc' with rfl | hmem
        · exact hstep2.1 (hw_mem st c' st1 h0)
        · exact ihA c' hmem
      · intro v hv hnv x hx
        by_cases hv1 : v ∈ st1.visited
        · have hnew := hw_new st c st1 h0 v hv1 hnv
          rw [Step_children hstep2 v] at hx
          exact hstep2.1 (hnew x hx)
        · exact ihB v hv hv1 x hx

/-- Every node the walk newly visits has all its children visited in the
final state: the visited set grows closed under the children relation. -/
theorem walk_newClosed {n : Nat} :
    ∀ (fuel : Nat) (st : WalkState n) (node : Fin n) (st' : WalkState n),
      walk fuel st node = some st' →
      ∀ v, v ∈ st'.visited → v ∉ st.visited →
        ∀ x, x ∈ (st'.heap v).children → x ∈ st'.visited := by
  intro fuel
  induction fuel with
  | zero => intro st node st' h; simp [walk] at h
  | succ fuel ih =>
    intro st node st' h
    by_cases hv : node ∈ st.visited
    · simp only [walk, hv, if_true, Option.some.injEq] at h
      subst h
      intro v h1 h2; exact absurd h1 h2
    · simp only [walk, hv, if_false] at h
      obtain ⟨hA, hB⟩ := walkList_closure (walk fuel)
        (fun a b c hc => walk_Step fuel a b c hc)
        (fun a b c hc => walk_mem_visited hc)
        (fun a b c hc => ih a b c hc)
        _ _ _ h
      have hstep2 := walkList_Step (walk fuel)
        (fun a b c hc => walk_Step fuel a b c hc) _ _ _ h
      intro v hvv hnv x hx
      by_cases hvn : v = node
      · subst hvn
        rw [Step_children hstep2 v] at hx
        exact hA x hx
      · have hv1 : v ∉ (stepState st node).visited := by
          simp only [stepState, Finset.mem_insert]
          intro hc
          rcases hc with hc | hc
          · exact hvn hc
          · exact hnv hc
        exact hB v hvv hv1 x hx

/-- Two walk states that agree on everything the traversal inspects:
pointwise-equal children structure, equal visited set, equal order. -/
def SameShape {n : Nat} (sa sb : WalkState n) : Prop :=
  (∀ v, (sa.heap v).children = (sb.heap v).children)
  ∧ sa.visited = sb.visited ∧ sa.order = sb.order

theorem stepState_SameShape {n : Nat} {sa sb : WalkState n} (node : Fin n)
    (h : SameShape sa sb) : SameShape (stepState sa node) (stepState sb node) := by
  obtain ⟨hch, hvis, hord⟩ := h
  refine ⟨?_, by simp [stepState, hvis], by simp [stepState, hord]⟩
  intro v
  rw [stepState_children, stepState_children]
  exact hch v

theorem walkList_congr {n : Nat}
    (wa wb : WalkState n → Fin n → Option (WalkState n))
    (hw : ∀ sa sb c, SameShape sa sb →
      (wa sa c = none ∧ wb sb c = none)
      ∨ ∃ sa' sb', wa sa c = some sa' ∧ wb sb c = some sb' ∧ SameShape sa' sb') :
    ∀ (cs : List (Fin n)) (sa sb : WalkState n), SameShape sa sb →
      (walkList wa sa cs = none ∧ walkList wb sb cs = none)
      ∨ ∃ sa' sb', walkList wa sa cs = some sa' ∧ walkList wb sb cs = some sb'
          ∧ SameShape sa' sb' := by
  intro cs
  induction cs with
  | nil => intro sa sb h; exact Or.inr ⟨sa, sb, rfl, rfl, h⟩
  | cons c cs ih =>
    intro sa sb h
    rcases hw sa sb c h with ⟨ha, hb⟩ | ⟨sa1, sb1, ha, hb, h1⟩
    · left; constructor <;> simp [walkList, ha, hb]
    · rcases ih sa1 sb1 h1 with ⟨ha', hb'⟩ | ⟨sa', sb', ha', hb', h'⟩
      · left; constructor
        · rw [walkList, ha]; exact ha'
        · rw [walkList, hb]; exact hb'
      · right
        refine ⟨sa', sb', ?_, ?_, h'⟩
        · rw [walkList, ha]; exact ha'
        · rw [walkList, hb]; exact hb'

theorem walk_congr {n : Nat} :
    ∀ (fuel : Nat) (sa sb : WalkState n) (node : Fin n), SameShape sa sb →
      (walk fuel sa node = none ∧ walk fuel sb node = none)
      ∨ ∃ sa' sb', walk fuel sa node = some sa' ∧ walk fuel sb node = some sb'
          ∧ SameShape sa' sb' := by
  intro fuel
  induction fuel with
  | zero => intro sa sb node _; left; constructor <;> simp [walk]
  | succ fuel ih =>
    intro sa sb node h
    obtain ⟨hch, hvis, hord⟩ := h
    by_cases hv : node ∈ sa.visited
    · right
      refine ⟨sa, sb, by simp [walk, hv], by simp [walk, ← hvis, hv], hch, hvis, hord⟩
    · have hvb : node ∉ sb.visited := by rw [← hvis]; exact hv
      have h1 : SameShape (stepState sa node) (stepState sb node) :=
        stepState_SameShape node ⟨hch, hvis, hord⟩
      have hch1 : ((stepState sa node).heap node).children
          = ((stepState sb node).heap node).children := h1.1 node
      rcases walkList_congr (walk fuel) (walk fuel)
          (fun a b c hc => ih a b c hc)
          (((stepState sa node).heap node).children)
          (stepState sa node) (stepState sb node) h1 with ⟨ha, hb⟩ | ⟨sa', sb', ha, hb, h'⟩
      · left
        constructor
        · simp only [walk, hv, if_false]; exact ha
        · simp only [walk, hvb, if_false]; rw [← hch1]; exact hb
      · right
        refine ⟨sa', sb', ?_, ?_, h'⟩
        · simp only [walk, hv, if_false]; exact ha
        · simp only [walk, hvb, if_false]; rw [← hch1]; exact hb

/-! ### C3 and C4 -/

/-- C3: on every heap of `n` nodes — arbitrary children structure, so
shared subtrees and cycles included — the walk with fuel `n + 1` completes
(the fuel-exhaustion escape is never taken, i.e. the recursion
terminates), and each distinct node identity is rewritten exactly once:
the visited set contains the root and is closed under the children
relation, so every node reachable from the root is covered; the rewrite
order lists each visited identity exactly once; and the final heap holds
exactly one `rewrite_element_assets` application at every visited node and
the untouched original node everywhere else. -/
theorem C3_theorem :
    ∀ (n : Nat) (heap : Fin n → RNode n) (root : Fin n),
      ∃ st, rewrite_tree_assets heap root = some st
        ∧ st.order.Nodup
        ∧ (∀ v, v ∈ st.order ↔ v ∈ st.visited)
        ∧ root ∈ st.visited
        ∧ (∀ v c, v ∈ st.visited → c ∈ (heap v).children → c ∈ st.visited)
        ∧ (∀ v, st.heap v =
            if v ∈ st.visited then rewrite_element_assets (heap v) else heap v) := by
  intro n heap root
  obtain ⟨st, hsome, -⟩ :=
    walk_total (n + 1) { heap := heap, visited := ∅, order := ([] : List (Fin n)) } root
      (by simp)
  have hch := Step_children (walk_Step (n + 1) _ root st hsome)
  have hclosed := walk_newClosed (n + 1) _ root st hsome
  obtain ⟨-, hnot, -, hnew, l, horder, hnodup, hmem⟩ :=
    walk_Step (n + 1) _ root st hsome
  simp only [List.nil_append] at horder
  refine ⟨st, hsome, by rw [horder]; exact hnodup, ?_, walk_mem_visited hsome, ?_, ?_⟩
  · intro v
    rw [horder, hmem v]
    simp
  · intro v c hv hc
    refine hclosed v hv (by simp) c ?_
    rw [hch v]
    exact hc
  · intro v
    by_cases hv : v ∈ st.visited
    · rw [if_pos hv]
      exact hnew v hv (by simp)
    · rw [if_neg hv]
      exact hnot v hv

/-- A concrete two-node cyclic heap for the C3 witness: node `0` (with one
script asset) has child `1`, and node `1` has child `0` — a cycle in which
node `1` is reachable only through node `0`'s child map. -/
def heapC : Fin 2 → RNode 2 := fun v =>
  if v = (0 : Fin 2) then
    { default_js := some [("leaflet", "https://x/leaflet.js")],
      default_css := none, children := [1] }
  else
    { default_js := none, default_css := none, children := [0] }

/-- C3 witness: `C3_theorem` on the concrete two-node cycle `heapC`: the
walk completes and the child node `1`, reachable only through node `0`,
is in the visited set (hence rewritten exactly once). -/
theorem C3_witness :
    ∃ st : WalkState 2, rewrite_tree_assets heapC 0 = some st
      ∧ (0 : Fin 2) ∈ st.visited ∧ (1 : Fin 2) ∈ st.visited := by
  obtain ⟨st, hsome, -, -, hroot, hclosed, -⟩ := C3_theorem 2 heapC 0
  exact ⟨st, hsome, hroot, hclosed 0 1 hroot (by decide)⟩

/-- C4: `rewrite_tree_assets` is idempotent.  A second call on the heap
produced by the first call visits the same identities in the same order
and leaves every node — hence every locator — exactly as the first call
left it. -/
theorem C4_theorem :
    ∀ (n : Nat) (heap : Fin n → RNode n) (root : Fin n),
      ∃ st1 st2, rewrite_tree_assets heap root = some st1
        ∧ rewrite_tree_assets st1.heap root = some st2
        ∧ (∀ v, st2.heap v = st1.heap v)
        ∧ st2.visited = st1.visited ∧ st2.order = st1.order := by
  intro n heap root
  obtain ⟨st1, hsome1, -⟩ :=
    walk_total (n + 1) { heap := heap, visited := ∅, order := ([] : List (Fin n)) } root
      (by simp)
  obtain ⟨-, hnot1, -, hnew1, -⟩ := walk_Step (n + 1) _ root st1 hsome1
  have hch1 : ∀ v, (heap v).children = (st1.heap v).children := by
    intro v
    by_cases hv : v ∈ st1.visited
    · rw [hnew1 v hv (by simp), rewrite_element_children]
    · rw [hnot1 v hv]
  have hshape : SameShape
      { heap := heap, visited := ∅, order := ([] : List (Fin n)) }
      { heap := st1.heap, visited := ∅, order := ([] : List (Fin n)) } :=
    ⟨hch1, rfl, rfl⟩
  rcases walk_congr (n + 1) _ _ root hshape with ⟨ha, -⟩ | ⟨sa', st2, ha, hb, hsh⟩
  · rw [hsome1] at ha
    exact absurd ha (by simp)
  · rw [hsome1] at ha
    have hsa : sa' = st1 := (Option.some.inj ha).symm
    rw [hsa] at hsh
    obtain ⟨-, hvis2, hord2⟩ := hsh
    obtain ⟨-, hnot2, -, hnew2, -⟩ := walk_Step (n + 1) _ root st2 hb
    refine ⟨st1, st2, hsome1, hb, ?_, hvis2.symm, hord2.symm⟩
    intro v
    by_cases hv : v ∈ st2.visited
    · have hv1 : v ∈ st1.visited := by rw [hvis2]; exact hv
      rw [hnew2 v hv (by simp)]
      show rewrite_element_assets (st1.heap v) = st1.heap v
      rw [hnew1 v hv1 (by simp), rewrite_element_idem]
    · exact hnot2 v hv

/-! ## Cache Populator (`offline_folium/__main__.py`)

The network is an oracle `fetch : String → Option String` (URL to response
body; `none` models any exception inside `download_file`, which catches it,
prints, and returns `False` without writing the destination).  The cache
directory is a flat map `String → Option String` from basename to file
contents.  A Python `set` of URLs is carried as a deduplicated list and
iterated through `sorted(...)`, modelled by `pySortedSet` (code-point
lexicographic insertion sort over the distinct elements). -/

/-- Code-point lexicographic `≤` on strings as character lists (Python's
`str` ordering used by `sorted`). -/
def charsLe : List Char → List Char → Bool
  | [], _ => true
  | _ :: _, [] => false
  | c :: cs, d :: ds => if c < d then true else if d < c then false else charsLe cs ds

/-- One insertion step of insertion sort. -/
def insertSorted (x : String) : List String → List String
  | [] => [x]
  | y :: ys => if charsLe x.data y.data then x :: y :: ys else y :: insertSorted x ys

/-- `sorted(set(l))`: the distinct elements of `l`, iterated in sorted
order. -/
def pySortedSet (l : List String) : List String :=
  l.dedup.foldr insertSorted []

theorem insertSorted_mem (x a : String) :
    ∀ l : List String, a ∈ insertSorted x l ↔ a = x ∨ a ∈ l := by
  intro l
  induction l with
  | nil => simp [insertSorted]
  | cons y ys ih =>
    cases hc : charsLe x.data y.data <;> simp [insertSorted, hc, ih] <;> tauto

theorem insertSorted_nodup (x : String) :
    ∀ l : List String, x ∉ l → l.Nodup → (insertSorted x l).Nodup := by
  intro l
  induction l with
  | nil => intro _ _; simp [insertSorted]
  | cons y ys ih =>
    intro hx hnd
    rw [List.nodup_cons] at hnd
    have hxy : x ≠ y := fun h => hx (h ▸ List.mem_cons_self _ _)
    have hxys : x ∉ ys := fun h => hx (List.mem_cons_of_mem _ h)
    cases hc : charsLe x.data y.data <;> simp only [insertSorted, hc]
    · rw [if_neg (by simp), List.nodup_cons]
      refine ⟨?_, ih hxys hnd.2⟩
      intro hy
      rcases (insertSorted_mem x y ys).1 hy with h | h
      · exact hxy h.symm
      · exact hnd.1 h
    · rw [if_pos trivial, List.nodup_cons]
      exact ⟨hx, List.nodup_cons.2 hnd⟩

theorem sortFold_nodup_mem :
    ∀ l : List String, l.Nodup →
      (l.foldr insertSorted []).Nodup
      ∧ ∀ a, a ∈ l.foldr insertSorted [] ↔ a ∈ l := by
  intro l
  induction l with
  | nil => intro _; exact ⟨List.nodup_nil, by simp⟩
  | cons x xs ih =>
    intro hnd
    rw [List.nodup_cons] at hnd
    obtain ⟨hnd1, hmem1⟩ := ih hnd.2
    refine ⟨?_, ?_⟩
    · rw [List.foldr_cons]
      refine insertSorted_nodup x _ ?_ hnd1
      intro hx
      exact hnd.1 ((hmem1 x).1 hx)
    · intro a
      rw [List.foldr_cons, insertSorted_mem, hmem1, List.mem_cons]

theorem pySortedSet_nodup (l : List String) : (pySortedSet l).Nodup :=
  (sortFold_nodup_mem l.dedup l.nodup_dedup).1

theorem pySortedSet_mem (a : String) (l : List String) :
    a ∈ pySortedSet l ↔ a ∈ l := by
  rw [pySortedSet, (sortFold_nodup_mem l.dedup l.nodup_dedup).2 a, List.mem_dedup]

theorem pySortedSet_nil : pySortedSet [] = [] := rfl

theorem pySortedSet_singleton (u : String) : pySortedSet [u] = [u] := by
  unfold pySortedSet
  rw [List.dedup_cons_of_not_mem (by simp), List.dedup_nil]
  rfl

/-- The evolving state of one `download_assets` run: the cache directory
contents, the three counters, the `failed_urls` list, plus two
instrumentation traces — `trace` records every URL the fetch loop
processed (skipped or not), `fetched` records every URL actually handed to
`download_file`. -/
structure RunState where
  fs : String → Option String
  success : Nat
  skipped : Nat
  failed : Nat
  failed_urls : List String
  trace : List String
  fetched : List String

def initRun (fs0 : String → Option String) : RunState :=
  { fs := fs0, success := 0, skipped := 0, failed := 0,
    failed_urls := [], trace := [], fetched := [] }

/-- The body of the per-URL fetch loop (`__main__.py`, lines 130–144):

```python
filename = url.split("?")[0].rsplit("/", 1)[-1]
dest = LOCAL_DIR / filename
if dest.exists() and not force:
    skipped += 1; continue
if download_file(url, dest):
    success += 1
else:
    failed += 1; failed_urls.append(url)
```
`download_file` (lines 25–40) writes the full body on success and returns
`True`; any exception is caught and it returns `False` without writing. -/
def processUrl (fetch : String → Option String) (force : Bool)
    (st : RunState) (url : String) : RunState :=
  if (st.fs (lastSeg (beforeQuery url))).isSome && !force then
    { st with skipped := st.skipped + 1, trace := st.trace ++ [url] }
  else
    match fetch url with
    | some content =>
      { st with success := st.success + 1,
                fs := fun f => if f = lastSeg (beforeQuery url) then some content else st.fs f,
                trace := st.trace ++ [url],
                fetched := st.fetched ++ [url] }
    | none =>
      { st with failed := st.failed + 1,
                failed_urls := st.failed_urls ++ [url],
                trace := st.trace ++ [url],
                fetched := st.fetched ++ [url] }

/-- One iteration of `for component, urls in collections.items()`
(`__main__.py`, lines 127–145): `if urls:` guards the block, then
`for url in sorted(urls):` runs the fetch loop.  `comp.2` carries the
component's URL set as a list; `pySortedSet` is the `sorted(set)`
iteration. -/
def processComponent (fetch : String → Option String) (force : Bool)
    (st : RunState) (comp : String × List String) : RunState :=
  if comp.2 = [] then st
  else (pySortedSet comp.2).foldl (processUrl fetch force) st

/-- The outcome of `download_assets`: final state, whether `sys.exit(1)`
was reached (`failed > 0`), and whether the early
`"No components selected. Nothing to download."` return was taken. -/
structure RunResult where
  state : RunState
  exitFailure : Bool
  noComponents : Bool

/-- `download_assets(plugins, force)` (`__main__.py`, lines 88–163), given
the already-collected `collections` dict as a list of
`(component, urls)` entries: empty dict returns early; otherwise every
component's URLs are processed and `sys.exit(1)` fires iff any fetch
failed. -/
def download_assets (fetch : String → Option String)
    (collections : List (String × List String)) (force : Bool)
    (fs0 : String → Option String) : RunResult :=
  if collections = [] then
    { state := initRun fs0, exitFailure := false, noComponents := true }
  else
    let st := collections.foldl (processComponent fetch force) (initRun fs0)
    { state := st, exitFailure := st.failed != 0, noComponents := false }

/-! ### Populator invariant lemmas -/

theorem foldlPreserve {α β : Type} (P : β → Prop) (f : β → α → β)
    (h : ∀ st a, P st → P (f st a)) :
    ∀ (l : List α) (st : β), P st → P (l.foldl f st) := by
  intro l
  induction l with
  | nil => intro st hst; exact hst
  | cons a l ih => intro st hst; exact ih (f st a) (h st a hst)

theorem processUrl_trace (fetch : String → Option String) (force : Bool)
    (st : RunState) (url : String) :
    (processUrl fetch force st url).trace = st.trace ++ [url] := by
  unfold processUrl
  cases h1 : (st.fs (lastSeg (beforeQuery url))).isSome && !force
  · rcases h2 : fetch url with _ | c <;> simp [h2]
  · simp

theorem foldl_processUrl_trace (fetch : String → Option String) (force : Bool) :
    ∀ (urls : List String) (st : RunState),
      (urls.foldl (processUrl fetch force) st).trace = st.trace ++ urls := by
  intro urls
  induction urls with
  | nil => intro st; simp
  | cons u us ih =>
    intro st
    rw [List.foldl_cons, ih, processUrl_trace]
    simp

theorem processComponent_trace (fetch : String → Option String) (force : Bool)
    (st : RunState) (comp : String × List String) :
    (processComponent fetch force st comp).trace = st.trace ++ pySortedSet comp.2 := by
  unfold processComponent
  by_cases h : comp.2 = []
  · rw [if_pos h, h, pySortedSet_nil, List.append_nil]
  · rw [if_neg h, foldl_processUrl_trace]

theorem foldl_processComponent_trace (fetch : String → Option String) (force : Bool) :
    ∀ (colls : List (String × List String)) (st : RunState),
      (colls.foldl (processComponent fetch force) st).trace
        = st.trace ++ (colls.map (fun c => pySortedSet c.2)).join := by
  intro colls
  induction colls with
  | nil => intro st; simp
  | cons c cs ih =>
    intro st
    rw [List.foldl_cons, ih, processComponent_trace]
    simp

/-- The trace of processed URLs is the per-component `sorted(set(...))`
lists concatenated in component order — independent of the fetch oracle,
the filesystem and the force flag's effect on outcomes. -/
theorem download_assets_trace (fetch : String → Option String)
    (colls : List (String × List String)) (force : Bool)
    (fs0 : String → Option String) :
    (download_assets fetch colls force fs0).state.trace
      = (colls.map (fun c => pySortedSet c.2)).join := by
  by_cases h : colls = []
  · subst h; simp [download_assets, initRun]
  · unfold download_assets
    rw [if_neg h]
    show (colls.foldl (processComponent fetch force) (initRun fs0)).trace = _
    rw [foldl_processComponent_trace]
    simp [initRun]

theorem processUrl_counts (fetch : String → Option String) (force : Bool)
    (st : RunState) (url : String)
    (h : st.success + st.skipped + st.failed = st.trace.length) :
    (processUrl fetch force st url).success + (processUrl fetch force st url).skipped
        + (processUrl fetch force st url).failed
      = (processUrl fetch force st url).trace.length := by
  unfold processUrl
  cases h1 : (st.fs (lastSeg (beforeQuery url))).isSome && !force
  · rcases h2 : fetch url with _ | c <;> simp [h2] <;> omega
  · simp
    omega

theorem processComponent_counts (fetch : String → Option String) (force : Bool)
    (st : RunState) (comp : String × List String)
    (h : st.success + st.skipped + st.failed = st.trace.length) :
    (processComponent fetch force st comp).success
        + (processComponent fetch force st comp).skipped
        + (processComponent fetch force st comp).failed
      = (processComponent fetch force st comp).trace.length := by
  unfold processComponent
  by_cases hc : comp.2 = []
  · rw [if_pos hc]; exact h
  · rw [if_neg hc]
    exact foldlPreserve
      (fun s => s.success + s.skipped + s.failed = s.trace.length)
      (processUrl fetch force)
      (fun s u hs => processUrl_counts fetch force s u hs)
      (pySortedSet comp.2) st h

theorem processUrl_fs_isSome (fetch : String → Option String) (force : Bool)
    (st : RunState) (url f : String) (h : (st.fs f).isSome = true) :
    ((processUrl fetch force st url).fs f).isSome = true := by
  unfold processUrl
  cases h1 : (st.fs (lastSeg (beforeQuery url))).isSome && !force
  · rcases h2 : fetch url with _ | c
    · simpa [h2] using h
    · simp only [h2]
      by_cases hf : f = lastSeg (beforeQuery url) <;> simp [hf, h]
  · simpa using h

theorem processComponent_fs_isSome (fetch : String → Option String) (force : Bool)
    (st : RunState) (comp : String × List String) (f : String)
    (h : (st.fs f).isSome = true) :
    ((processComponent fetch force st comp).fs f).isSome = true := by
  unfold processComponent
  by_cases hc : comp.2 = []
  · rw [if_pos hc]; exact h
  · rw [if_neg hc]
    exact foldlPreserve (fun s => (s.fs f).isSome = true)
      (processUrl fetch force)
      (fun s u hs => processUrl_fs_isSome fetch force s u f hs)
      (pySortedSet comp.2) st h

/-! ### C5 -/

/-- C5: in every run, (a) `sys.exit(1)` is reached iff at least one fetch
failed; (b) the sequence of URLs the loop processes does not depend on the
fetch oracle — a failure never aborts the run, every remaining URL is
still attempted; (c) every processed URL is accounted exactly once among
downloaded / skipped / failed; (d) files present in the cache before the
run are still present afterwards (nothing deletes a file, successes only
add or overwrite). -/
theorem C5_theorem :
    ∀ (fetch : String → Option String) (collections : List (String × List String))
      (force : Bool) (fs0 : String → Option String),
      ((download_assets fetch collections force fs0).exitFailure = true
        ↔ 0 < (download_assets fetch collections force fs0).state.failed)
      ∧ (∀ fetch2 : String → Option String,
          (download_assets fetch2 collections force fs0).state.trace
            = (download_assets fetch collections force fs0).state.trace)
      ∧ (download_assets fetch collections force fs0).state.success
          + (download_assets fetch collections force fs0).state.skipped
          + (download_assets fetch collections force fs0).state.failed
        = (download_assets fetch collections force fs0).state.trace.length
      ∧ (∀ f : String, (fs0 f).isSome = true →
          ((download_assets fetch collections force fs0).state.fs f).isSome = true) := by
  intro fetch collections force fs0
  refine ⟨?_, ?_, ?_, ?_⟩
  · by_cases h : collections = []
    · subst h; simp [download_assets, initRun]
    · unfold download_assets
      rw [if_neg h]
      show ((_ : RunState).failed != 0) = true ↔ _
      simp [bne_iff_ne, Nat.pos_iff_ne_zero]
  · intro fetch2
    rw [download_assets_trace, download_assets_trace]
  · by_cases h : collections = []
    · subst h; simp [download_assets, initRun]
    · unfold download_assets
      rw [if_neg h]
      exact foldlPreserve
        (fun s => s.success + s.skipped + s.failed = s.trace.length)
        (processComponent fetch force)
        (fun s c hs => processComponent_counts fetch force s c hs)
        collections (initRun fs0) rfl
  · intro f hf
    by_cases h : collections = []
    · subst h; simpa [download_assets, initRun] using hf
    · unfold download_assets
      rw [if_neg h]
      exact foldlPreserve (fun s => (s.fs f).isSome = true)
        (processComponent fetch force)
        (fun s c hs => processComponent_fs_isSome fetch force s c f hs)
        collections (initRun fs0) hf

/-- C5 witness: the file-preservation part of `C5_theorem` at a concrete
run in which the only fetch fails, applied to a pre-existing cache file. -/
theorem C5_witness :
    ((download_assets (fun _ => Option.none) [("Map", ["https://x/leaflet.js"])] false
        (fun f => if f = "style.css" then some "body" else Option.none)).state.fs
      "style.css").isSome = true :=
  (C5_theorem (fun _ => Option.none) [("Map", ["https://x/leaflet.js"])] false
      (fun f => if f = "style.css" then some "body" else Option.none)).2.2.2
    "style.css" (by decide)

/-! ### C6 -/

theorem processUrl_skip (fetch : String → Option String) (st : RunState) (url : String)
    (h : (st.fs (lastSeg (beforeQuery url))).isSome = true) :
    processUrl fetch false st url
      = { st with skipped := st.skipped + 1, trace := st.trace ++ [url] } := by
  unfold processUrl
  rw [if_pos (by simp [h])]

theorem processUrl_force (fetch : String → Option String) (st : RunState)
    (url content : String) (h : fetch url = some content) :
    processUrl fetch true st url
      = { st with
          success := st.success + 1,
          fs := fun f => if f = lastSeg (beforeQuery url) then some content else st.fs f,
          trace := st.trace ++ [url],
          fetched := st.fetched ++ [url] } := by
  unfold processUrl
  rw [if_neg (by simp), h]

theorem download_assets_single (fetch : String → Option String) (force : Bool)
    (fs0 : String → Option String) (label u : String) :
    download_assets fetch [(label, [u])] force fs0
      = { state := processUrl fetch force (initRun fs0) u,
          exitFailure := (processUrl fetch force (initRun fs0) u).failed != 0,
          noComponents := false } := by
  unfold download_assets
  rw [if_neg (by simp)]
  show ({ state := [(label, [u])].foldl (processComponent fetch force) (initRun fs0),
          exitFailure := _, noComponents := false } : RunResult) = _
  rw [List.foldl_cons, List.foldl_nil]
  unfold processComponent
  rw [if_neg (by simp), pySortedSet_singleton, List.foldl_cons, List.foldl_nil]

/-- C6: if the destination basename of a URL already has a file in the
cache, a run over that URL with `force = false` leaves the file's bytes
unchanged, performs no fetch, and records one skip (exit success); the
same run with `force = true` fetches, overwrites the file with the
response body, and records one download. -/
theorem C6_theorem :
    ∀ (label u : String) (fetch : String → Option String)
      (fs0 : String → Option String) (b content : String),
      (fs0 (lastSeg (beforeQuery u)) = some b →
        (download_assets fetch [(label, [u])] false fs0).state.fs
            (lastSeg (beforeQuery u)) = some b
        ∧ (download_assets fetch [(label, [u])] false fs0).state.skipped = 1
        ∧ (download_assets fetch [(label, [u])] false fs0).state.success = 0
        ∧ (download_assets fetch [(label, [u])] false fs0).state.failed = 0
        ∧ (download_assets fetch [(label, [u])] false fs0).state.fetched = []
        ∧ (download_assets fetch [(label, [u])] false fs0).exitFailure = false)
      ∧ (fs0 (lastSeg (beforeQuery u)) = some b → fetch u = some content →
        (download_assets fetch [(label, [u])] true fs0).state.fs
            (lastSeg (beforeQuery u)) = some content
        ∧ (download_assets fetch [(label, [u])] true fs0).state.success = 1
        ∧ (download_assets fetch [(label, [u])] true fs0).state.skipped = 0
        ∧ (download_assets fetch [(label, [u])] true fs0).state.failed = 0) := by
  intro label u fetch fs0 b content
  constructor
  · intro hfs
    rw [download_assets_single,
      processUrl_skip fetch (initRun fs0) u (by simp [initRun, hfs])]
    exact ⟨hfs, rfl, rfl, rfl, rfl, rfl⟩
  · intro hfs hfetch
    rw [download_assets_single, processUrl_force fetch (initRun fs0) u content hfetch]
    refine ⟨?_, rfl, rfl, rfl⟩
    show (if lastSeg (beforeQuery u) = lastSeg (beforeQuery u)
        then some content else (initRun fs0).fs (lastSeg (beforeQuery u))) = some content
    rw [if_pos rfl]

/-- C6 witness: `C6_theorem` at a concrete URL with a pre-existing cached
file, a working fetch, and both force settings. -/
theorem C6_witness :
    ((download_assets (fun _ => some "new") [("Map", ["https://x/leaflet.js?v=2"])] false
        (fun f => if f = "leaflet.js" then some "old" else Option.none)).state.fs
      "leaflet.js" = some "old")
    ∧ ((download_assets (fun _ => some "new") [("Map", ["https://x/leaflet.js?v=2"])] true
        (fun f => if f = "leaflet.js" then some "old" else Option.none)).state.fs
      "leaflet.js" = some "new") := by
  have h := C6_theorem "Map" "https://x/leaflet.js?v=2" (fun _ => some "new")
    (fun f => if f = "leaflet.js" then some "old" else Option.none) "old" "new"
  have hseg : lastSeg (beforeQuery "https://x/leaflet.js?v=2") = "leaflet.js" := by decide
  refine ⟨?_, ?_⟩
  · have h1 := (h.1 (by decide)).1
    rw [hseg] at h1
    exact h1
  · have h2 := (h.2 (by decide) rfl).1
    rw [hseg] at h2
    exact h2

/-! ### C7 -/

/-- C7 counterexample.  The claim says the fetch list is deduplicated by
full URL across all selected targets and no URL is attempted twice in one
run.  Deduplication is per-component (each component's URLs live in their
own Python set): the same URL appearing in two components is handed to
`download_file` once per component — here twice in one `force` run. -/
theorem C7_counterexample :
    (download_assets (fun _ => some "body")
        [("P", ["https://x/a.js"]), ("Q", ["https://x/a.js"])] true
        (fun _ => Option.none)).state.fetched
      = ["https://x/a.js", "https://x/a.js"] := by decide

/-- C7 (amended): the fetch list is organised per component, not globally:
each component's URL set is deduplicated within that component only and
iterated in `sorted(...)` order, components are processed in collection
order and their URL lists concatenated; a URL shared by several components
is processed once per component (usually skipped after the first success
when `force` is false, but fetched again under `force` or after a
failure). -/
theorem C7_amended_theorem :
    ∀ (fetch : String → Option String) (collections : List (String × List String))
      (force : Bool) (fs0 : String → Option String),
      (download_assets fetch collections force fs0).state.trace
          = (collections.map (fun c => pySortedSet c.2)).join
      ∧ (∀ c : String × List String, c ∈ collections → (pySortedSet c.2).Nodup)
      ∧ (∀ (u : String) (l : List String), u ∈ pySortedSet l ↔ u ∈ l) := by
  intro fetch collections force fs0
  exact ⟨download_assets_trace fetch collections force fs0,
    fun c _ => pySortedSet_nodup c.2,
    fun u l => pySortedSet_mem u l⟩

/-- C7 witness: the per-component deduplication half of
`C7_amended_theorem` at a concrete collection with a duplicated URL. -/
theorem C7_amended_witness :
    (pySortedSet ["https://x/b.js", "https://x/a.js", "https://x/b.js"]).Nodup :=
  (C7_amended_theorem (fun _ => Option.none)
      [("P", ["https://x/b.js", "https://x/a.js", "https://x/b.js"])] false
      (fun _ => Option.none)).2.1
    ("P", ["https://x/b.js", "https://x/a.js", "https://x/b.js"]) (by decide)

/-! ### `collect_urls` and C9 -/

/-- `AVAILABLE_PLUGINS` (`__main__.py`, lines 14–22): the recognized
plugin-group names (the folium classes they map to are external). -/
def AVAILABLE_PLUGINS : List String :=
  ["heatmap", "markercluster", "draw", "minimap", "mouseposition",
   "fullscreen", "beautifyicon"]

/-- ASCII `str.lower()` on one character. -/
def charToLower (c : Char) : Char :=
  if 'A' ≤ c ∧ c ≤ 'Z' then Char.ofNat (c.toNat + 32) else c

/-- `plugin_name.lower()` (plugin names are ASCII). -/
def pyToLower (s : String) : String :=
  ⟨s.data.map charToLower⟩

/-- `url.startswith(("http://", "https://"))`. -/
def isRemoteUrl (u : String) : Bool :=
  pyStartsWith u "http://" || pyStartsWith u "https://"

/-- The external folium data `collect_urls` reads: the class-level
`default_js`/`default_css` pairs of `folium.Map` and of each recognized
plugin class (keyed by lower-cased plugin name). -/
structure FoliumEnv where
  mapJs : List (String × String)
  mapCss : List (String × String)
  pluginJs : String → List (String × String)
  pluginCss : String → List (String × String)

/-- `collect_urls_from_object` (`__main__.py`, lines 43–55): the set of
`default_js`/`default_css` URLs with an `http://` or `https://` prefix.
The Python `set` is carried as the deduplicated list of the URLs in
encounter order; consumers iterate it through `sorted` (`pySortedSet`). -/
def collect_urls_from_object (js css : List (String × String)) : List String :=
  ((js.map Prod.snd).filter isRemoteUrl ++ (css.map Prod.snd).filter isRemoteUrl).dedup

/-- `collect_urls(plugins)` (`__main__.py`, lines 58–85): the `"Map"` entry
is always inserted first; each requested plugin name is lower-cased,
unknown names only produce a warning, and a recognized plugin is added
when its URL set is non-empty.  (Requesting the same name twice collapses
into one dict key in Python; the duplicate entries this list model would
carry are identical, and no claim depends on that corner.) -/
def collect_urls (env : FoliumEnv) (plugins : List String) :
    List (String × List String) :=
  ("Map", collect_urls_from_object env.mapJs env.mapCss) ::
    plugins.filterMap (fun name =>
      if pyToLower name ∈ AVAILABLE_PLUGINS then
        if collect_urls_from_object (env.pluginJs (pyToLower name))
            (env.pluginCss (pyToLower name)) = [] then none
        else some (name, collect_urls_from_object (env.pluginJs (pyToLower name))
            (env.pluginCss (pyToLower name)))
      else none)

/-- A concrete external-library state for the C9 counterexample: the Map
class exposes one remote script asset, no recognized plugin exposes
anything. -/
def envC : FoliumEnv :=
  { mapJs := [("leaflet", "https://x/leaflet.js")], mapCss := [],
    pluginJs := fun _ => [], pluginCss := fun _ => [] }

/-- C9 counterexample.  The claim says that when every requested group name
is filtered out as unrecognized, the run is a no-op with no fetches.  In
the code `collections["Map"]` is always set before the filtering, so the
collection is non-empty, the `"Nothing to download."` early return is not
taken, and the Map component's URL is fetched. -/
theorem C9_counterexample :
    collect_urls envC ["bogus"] = [("Map", ["https://x/leaflet.js"])]
    ∧ (download_assets (fun _ => some "body") (collect_urls envC ["bogus"]) false
        (fun _ => Option.none)).state.fetched = ["https://x/leaflet.js"]
    ∧ (download_assets (fun _ => some "body") (collect_urls envC ["bogus"]) false
        (fun _ => Option.none)).noComponents = false := by
  refine ⟨by decide, by decide, by decide⟩

/-- C9 (amended): filtering can never leave the collection empty — the
`"Map"` component is inserted unconditionally first, so the
`"No components selected. Nothing to download."` early return is
unreachable through `collect_urls`; with zero recognized plugin names the
run still processes Map's collected URLs (and, by C5, exits successfully
iff none of those fetches fail). -/
theorem C9_amended_theorem :
    ∀ (env : FoliumEnv) (plugins : List String) (fetch : String → Option String)
      (force : Bool) (fs0 : String → Option String),
      (∃ rest, collect_urls env plugins
          = ("Map", collect_urls_from_object env.mapJs env.mapCss) :: rest)
      ∧ (download_assets fetch (collect_urls env plugins) force fs0).noComponents
          = false := by
  intro env plugins fetch force fs0
  refine ⟨⟨_, rfl⟩, ?_⟩
  unfold download_assets collect_urls
  rw [if_neg (by simp)]
